import Mathlib

/-!
Verification of the candidate-resolution and matching pipeline of the
daily3albums repository: a shallow embedding of the data model and the
pure algorithms of `daily3albums/dry_run.py`, `daily3albums/adapters.py`
and `daily3albums/cli.py`, followed by theorems settling the spec claims.

Numbers are modelled with `ℚ` (the Python code uses floats on small
decimal constants; every claim is about the formulas, not rounding).
External collaborators that are out of scope of the embedding — the
network broker, difflib SequenceMatcher text similarity, the Unicode
NFKC/regex cleaning helpers, `math.exp`, and the SHA-256 digest — are
modelled as explicit function parameters (oracles); all control flow,
thresholds, scoring formulas and state updates are embedded exactly.
-/

set_option maxHeartbeats 1000000

namespace Daily3Albums

/-- Python `str.strip()` (kernel-computable form of `String.trim`). -/
def trimPy (s : String) : String :=
  String.mk (((s.data.dropWhile Char.isWhitespace).reverse.dropWhile Char.isWhitespace).reverse)

/-- Python `str.lower()` (modelled over the ASCII range). -/
def lowerPy (s : String) : String := String.mk (s.data.map Char.toLower)

/-- Helper for `splitWsTokens`: accumulate the current token (reversed)
and cut at whitespace. -/
def splitWsAux : List Char → List Char → List String
  | [], acc => if acc.isEmpty then [] else [String.mk acc.reverse]
  | ch :: rest, acc =>
    if ch.isWhitespace then
      if acc.isEmpty then splitWsAux rest [] else String.mk acc.reverse :: splitWsAux rest []
    else splitWsAux rest (ch :: acc)

/-- Python `str.split()` with no argument: the non-empty
whitespace-separated tokens. -/
def splitWsTokens (s : String) : List String := splitWsAux s.data []

/-- Join a list of strings with a separator (kernel-computable form of
`String.intercalate`). -/
def joinWith (sep : String) : List String → String
  | [] => ""
  | [x] => x
  | x :: y :: rest => x ++ sep ++ joinWith sep (y :: rest)

/-- Collapse runs of whitespace into single spaces, as Python
`re.sub(r"\s+", " ", s)` does on an already stripped string. -/
def collapseWs (s : String) : String := joinWith " " (splitWsTokens s)

/-- Word characters of the Python regex class `\w` (ASCII range). -/
def isWordChar (ch : Char) : Bool := ch.isAlphanum || ch = '_'

/-- dry_run._norm_key: lower-case, strip, collapse whitespace, then drop
characters outside `[\w\s]` (modelled over the ASCII range). -/
def norm_key (s : String) : String :=
  let s2 := collapseWs (trimPy (lowerPy s))
  String.mk (s2.data.filter (fun ch => isWordChar ch || ch.isWhitespace))

/-- dry_run._light_album_key: the candidate identity key. -/
def light_album_key (artist title : String) : String :=
  norm_key artist ++ "::" ++ norm_key title

/-- Tokens of the feat-suffix regex in cli._normalize_artist_credit. -/
def featTokens : List String := ["feat.", "featuring", "ft."]

/-- Helper for `normalize_artist_credit`: drop everything from the first
inner feat-token that is followed by at least one more word (the regex
requires whitespace on both sides of the token). -/
def cutFeatTail : List String → List String
  | [] => []
  | [w] => [w]
  | w :: rest => if w ∈ featTokens then [] else w :: cutFeatTail rest

/-- cli._normalize_artist_credit: lower-case, strip, remove the
`\s+(feat\.|featuring|ft\.)\s+.*$` suffix (modelled word-wise), collapse
whitespace. -/
def normalize_artist_credit (value : String) : String :=
  let text := lowerPy (trimPy value)
  let ws := splitWsTokens text
  joinWith " " (
    match ws with
    | [] => []
    | w :: rest => w :: cutFeatTail rest)

/-- Python truthiness of an `Optional[str]`: `None` and `""` are falsy. -/
def optStrTruthy : Option String → Bool
  | none => false
  | some s => s != ""

/-- dry_run.Candidate. `sources` is a Python set (modelled as `Finset`);
`source_ranks` a Python dict (modelled as an insertion-ordered
association list). The diagnostic-only fields are kept. -/
structure Candidate where
  title : String
  artist : String
  image_url : Option String := none
  lastfm_rank : Option Int := none
  lastfm_mbid : Option String := none
  sources : Finset String := ∅
  source_ranks : List (String × Int) := []
  rg_mbid_hint : Option String := none
  artist_mbid_hint : Option String := none
deriving DecidableEq

/-- dry_run.NormalizedCandidate. -/
structure NormalizedCandidate where
  title : String
  artist : String
  mb_release_group_id : Option String
  artist_mbids : List String := []
  primary_type : Option String := none
  first_release_date : Option String := none
  confidence : ℚ := 1
  source : String := "hint"
deriving DecidableEq

/-- dry_run.ScoredCandidate (the untyped diagnostics dict is omitted). -/
structure ScoredCandidate where
  score : ℚ
  c : Candidate
  n : Option NormalizedCandidate
  reason : String := ""
  mb_debug : List String := []
deriving DecidableEq

/-- Update one key of an insertion-ordered association list: replace the
value in place when the key exists, append otherwise (Python dict item
assignment). -/
def setKey : List (String × Int) → String → Int → List (String × Int)
  | [], k, v => [(k, v)]
  | (k0, v0) :: rest, k, v =>
    if k0 = k then (k, v) :: rest else (k0, v0) :: setKey rest k v

/-- Python `dict.update`: each entry of `upd` overwrites or appends. -/
def dictUpdate (old upd : List (String × Int)) : List (String × Int) :=
  upd.foldl (fun acc kv => setKey acc kv.1 kv.2) old

/-- First value stored under a key. -/
def lookupKey (l : List (String × Int)) (k : String) : Option Int :=
  (l.find? (fun kv => kv.1 == k)).map (fun kv => kv.2)

/-- dry_run._merge_candidates, body of the duplicate branch: fold a later
occurrence `c` into the established record `m`. -/
def mergeInto (m c : Candidate) : Candidate :=
  { m with
    sources := m.sources ∪ c.sources
    source_ranks := dictUpdate m.source_ranks c.source_ranks
    image_url :=
      if (!optStrTruthy m.image_url) && optStrTruthy c.image_url then c.image_url
      else m.image_url
    lastfm_rank :=
      match c.lastfm_rank, m.lastfm_rank with
      | some cr, none => some cr
      | some cr, some mr => if cr < mr then some cr else some mr
      | none, r => r
    lastfm_mbid :=
      if optStrTruthy c.lastfm_mbid && (!optStrTruthy m.lastfm_mbid) then c.lastfm_mbid
      else m.lastfm_mbid
    rg_mbid_hint :=
      if optStrTruthy c.rg_mbid_hint && (!optStrTruthy m.rg_mbid_hint) then c.rg_mbid_hint
      else m.rg_mbid_hint
    artist_mbid_hint :=
      if optStrTruthy c.artist_mbid_hint && (!optStrTruthy m.artist_mbid_hint) then c.artist_mbid_hint
      else m.artist_mbid_hint }

/-- One step of the merge fold: the first occurrence of a key establishes
the record, later occurrences are folded into it in place. -/
def mergeStep (merged : List (String × Candidate)) (c : Candidate) : List (String × Candidate) :=
  let k := light_album_key c.artist c.title
  if merged.any (fun kv => kv.1 == k) then
    merged.map (fun kv => if kv.1 == k then (k, mergeInto kv.2 c) else kv)
  else
    merged ++ [(k, c)]

/-- dry_run._merge_candidates. -/
def merge_candidates (cands : List Candidate) : List Candidate :=
  (cands.foldl mergeStep []).map Prod.snd

/-- dry_run._score, jitter line: `(int(h[:8], 16) / 0xFFFFFFFF - 0.5) * 0.6`
where `v` is the integer value of the first 8 hex digits of the SHA-256
digest, i.e. its leading 32 bits. -/
def jitterOfHash (v : ℕ) : ℚ := ((v : ℚ) / (4294967295 : ℚ) - 0.5) * 0.6

/-- dry_run._score, inner `peak_head`. -/
def peak_head (r : Int) : ℚ :=
  if r ≤ 0 then 0 else max 0 ((18 : ℚ) - (r : ℚ)) * 0.8

/-- dry_run._score, inner `peak_tail`. -/
def peak_tail (r : Int) : ℚ :=
  if r ≤ 0 then 0 else min 22 (max 0 ((r : ℚ) - 60) * 0.12)

/-- dry_run._score, the rank list: dict values plus the Last.fm rank. -/
def ranksOf (cand : Candidate) : List Int :=
  cand.source_ranks.map Prod.snd ++
    (match cand.lastfm_rank with | some r => [r] | none => [])

/-- dry_run._score. `hash32` models the leading 32 bits of the SHA-256
hex digest of its string argument. -/
def score (hash32 : String → ℕ) (norm : Option NormalizedCandidate) (cand : Candidate)
    (deepcut : Bool) (seed_key : String) : ℚ :=
  let src_bonus : ℚ := ((max 0 ((cand.sources.card : ℤ) - 1) : ℤ) : ℚ) * 6
  let ranks := ranksOf cand
  let rank_score0 : ℚ := (ranks.map (fun r => peak_head r + peak_tail r)).sum
  let rank_score : ℚ :=
    if deepcut then
      rank_score0 - ((ranks.filter (fun r => r ≤ 25)).map (fun r : Int => ((26 : ℚ) - (r : ℚ)) * 0.9)).sum
    else rank_score0
  let qual : ℚ :=
    (if optStrTruthy (norm.bind (fun x => x.mb_release_group_id)) then 6 else 0)
    + (if norm.bind (fun x => x.primary_type) = some "Album" then 2.5 else 0)
    + (if optStrTruthy (norm.bind (fun x => x.first_release_date)) then 1 else 0)
  let jitter := jitterOfHash (hash32 (seed_key ++ light_album_key cand.artist cand.title))
  src_bonus + rank_score + qual + jitter

/-- adapters.MbReleaseGroup. The `artist_mbids` field is read by
dry_run._normalize_candidate although the adapters dataclass does not
declare it (version skew between the two modules); it is modelled here
as dry_run expects, defaulting to the empty list. -/
structure MbReleaseGroup where
  id : String
  title : String
  artist_credit : String
  first_release_date : Option String := none
  primary_type : Option String := none
  secondary_types : List String := []
  artist_mbids : List String := []
deriving DecidableEq

/-- adapters.MbBestMatch. -/
structure MbBestMatch where
  rg : MbReleaseGroup
  confidence : ℚ
  method : String
  query : String
  title_sim : ℚ
  artist_sim : ℚ
  note : String
deriving DecidableEq

/-- adapters.MbReleaseGroupSummary; `artist_mbids` is again the field
dry_run reads but the adapters dataclass lacks (version skew). -/
structure MbReleaseGroupSummary where
  id : String
  first_release_date : Option String := none
  primary_type : Option String := none
  artist_mbids : List String := []
deriving DecidableEq

/-- External collaborators of the matcher, modelled as oracles:
difflib-based text similarity (`sim` stands for adapters._ratio), the
Unicode NFKC/regex cleaning helpers, and the network lookups through the
request broker. The matcher's control flow, thresholds and state
tracking are embedded exactly. -/
structure MbNormEnv where
  sim : String → String → ℚ
  cleanTitle : String → String
  cleanArtist : String → String
  normText : String → String
  search : String → ℕ → List MbReleaseGroup
  resolveMbid : String → Option MbReleaseGroupSummary × String
  getReleaseGroup : String → Option MbReleaseGroupSummary

/-- adapters._score_release_group_candidate: base confidence
`0.72 * title_sim + 0.28 * artist_sim` followed by the sequential type
adjustments, returning (confidence, title_sim, artist_sim, note). -/
def score_release_group_candidate (sim : String → String → ℚ)
    (clean_title clean_artist : String) (rg : MbReleaseGroup) : ℚ × ℚ × ℚ × String :=
  let title_sim := sim clean_title rg.title
  let rg_artist := rg.artist_credit
  let artist_sim := if rg_artist != "" then sim clean_artist rg_artist else 0
  let conf0 : ℚ := 0.72 * title_sim + 0.28 * artist_sim
  let pt := lowerPy (rg.primary_type.getD "")
  let step1 : ℚ × List String :=
    if pt = "album" then (conf0 + 0.05, ["pt:album:+0.05"])
    else if pt = "ep" ∨ pt = "single" then (conf0 - 0.10, ["pt:" ++ pt ++ ":-0.10"])
    else (conf0, [])
  let st := rg.secondary_types.map lowerPy
  let step2 :=
    if "compilation" ∈ st then (step1.1 - 0.12, step1.2 ++ ["st:compilation:-0.12"]) else step1
  let step3 := if "live" ∈ st then (step2.1 - 0.08, step2.2 ++ ["st:live:-0.08"]) else step2
  let step4 := if "remix" ∈ st then (step3.1 - 0.06, step3.2 ++ ["st:remix:-0.06"]) else step3
  (step4.1, title_sim, artist_sim, joinWith "," step4.2)

/-- Per-tier admission gate of
adapters.musicbrainz_best_release_group_match_debug (the chain of
`continue` guards inside the result loop): reject title_sim < 0.60; on
the title-only tier additionally reject artist_sim < 0.62 and
confidence < 0.88; on every other tier reject artist_sim < 0.50. -/
def tierAccepts (method : String) (conf title_sim artist_sim : ℚ) : Bool :=
  if title_sim < 0.60 then false
  else if method = "search:title_only" then
    if artist_sim < 0.62 then false
    else if conf < 0.88 then false
    else true
  else if artist_sim < 0.50 then false
  else true

/-- Does the slot hold a match with the same release-group id? -/
def sameId (o : Option MbBestMatch) (cand : MbBestMatch) : Bool :=
  match o with
  | some t => cand.rg.id == t.rg.id
  | none => false

/-- Keep the higher-confidence of the stored match and the new hit. -/
def bumpIfHigher (o : Option MbBestMatch) (cand : MbBestMatch) : Option MbBestMatch :=
  match o with
  | some t => if cand.confidence > t.confidence then some cand else some t
  | none => some cand

/-- adapters._push_top2, clause for clause: same-id hits update the
stored entry to the higher confidence; otherwise the candidate is placed
against top1 and top2 by confidence, demoting the previous top1 only
when its id differs from the new one. -/
def push_top2 (st : Option MbBestMatch × Option MbBestMatch) (cand : MbBestMatch) :
    Option MbBestMatch × Option MbBestMatch :=
  let (top1, top2) := st
  if sameId top1 cand then (bumpIfHigher top1 cand, top2)
  else if sameId top2 cand then (top1, bumpIfHigher top2 cand)
  else
    match top1 with
    | none => (some cand, top2)
    | some t1 =>
      if cand.confidence > t1.confidence then
        (some cand, if t1.rg.id != cand.rg.id then some t1 else top2)
      else
        match top2 with
        | none => (some t1, some cand)
        | some t2 =>
          if cand.confidence > t2.confidence then (some t1, some cand) else (some t1, some t2)

/-- The four query tiers of the matcher, in attempt order. -/
def matchAttempts (raw_title raw_artist clean_title clean_artist : String) :
    List (String × String) :=
  [("search:strict",
      "releasegroup:\"" ++ raw_title ++ "\" AND artist:\"" ++ raw_artist ++ "\""),
   ("search:clean_strict",
      "releasegroup:\"" ++ clean_title ++ "\" AND artist:\"" ++ clean_artist ++ "\""),
   ("search:clean_loose",
      "releasegroup:" ++ clean_title ++ " AND artist:" ++ clean_artist),
   ("search:title_only", "releasegroup:" ++ clean_title)]

/-- One result of a tier: score the release group, apply the tier gate,
and push accepted candidates into the top-2 tracker. -/
def tierStep (env : MbNormEnv) (clean_title clean_artist method q : String)
    (st : Option MbBestMatch × Option MbBestMatch) (rg : MbReleaseGroup) :
    Option MbBestMatch × Option MbBestMatch :=
  let r := score_release_group_candidate env.sim clean_title clean_artist rg
  let conf := r.1
  let tsim := r.2.1
  let asim := r.2.2.1
  let note := r.2.2.2
  if tierAccepts method conf tsim asim then
    push_top2 st
      { rg := rg, confidence := conf, method := method, query := q,
        title_sim := tsim, artist_sim := asim, note := note }
  else st

/-- The tier loop of the matcher: walk the query tiers in order, fold
the first (at most) ten results of each through `tierStep`, and stop
early once the best confidence reaches 0.92. Debug lines carry the
structural content of the source lines (numeric formatting
abbreviated). -/
def matchLoop (env : MbNormEnv) (clean_title clean_artist : String) (limit : ℕ) :
    List (String × String) → Option MbBestMatch × Option MbBestMatch → List String →
    Option MbBestMatch × Option MbBestMatch × List String
  | [], st, dbg => (st.1, st.2, dbg)
  | (method, q) :: rest, st, dbg =>
    let rgs := env.search q limit
    let dbg1 := dbg ++ [method ++ ":results=" ++ toString rgs.length ++ " query=" ++ q]
    if rgs.isEmpty then matchLoop env clean_title clean_artist limit rest st dbg1
    else
      let st2 := (rgs.take (min rgs.length 10)).foldl
        (tierStep env clean_title clean_artist method q) st
      match st2.1 with
      | none => matchLoop env clean_title clean_artist limit rest st2 dbg1
      | some b =>
        let dbg2 := dbg1 ++ ["best@" ++ method ++ ": conf=" ++ toString b.confidence]
        if b.confidence ≥ 0.92 then (st2.1, st2.2, dbg2)
        else matchLoop env clean_title clean_artist limit rest st2 dbg2

/-- adapters.musicbrainz_best_release_group_match_debug: the fuzzy
text-search matcher. Returns (best match or none, runner-up confidence
when a distinct runner-up exists, debug lines). -/
def musicbrainz_best_release_group_match_debug (env : MbNormEnv) (title artist : String)
    (limit : ℕ) : Option MbBestMatch × Option ℚ × List String :=
  let raw_title := trimPy title
  let raw_artist := trimPy artist
  if raw_title = "" ∨ raw_artist = "" then (none, none, ["skip:missing_title_or_artist"])
  else
    let clean_title := env.cleanTitle raw_title
    let clean_artist := env.cleanArtist raw_artist
    if (env.normText clean_title).length < 3 then (none, none, ["skip:title_too_short"])
    else
      match matchLoop env clean_title clean_artist limit
        (matchAttempts raw_title raw_artist clean_title clean_artist) (none, none) [] with
      | (none, _, dbg) => (none, none, dbg ++ ["final:none"])
      | (some t1, t2, dbg) =>
        let runner : Option ℚ :=
          match t2 with
          | some t2v => if t2v.rg.id != t1.rg.id then some t2v.confidence else none
          | none => none
        (some t1, runner, dbg ++ ["final:conf=" ++ toString t1.confidence])

/-- dry_run._normalize_candidate (resolution paths; the broker-statistics
diagnostics payload is omitted). The fuzzy path binds the matcher result
directly: the runner-up confidence returned beside it is discarded, and
no minimum-confidence test is applied. (The source additionally passes a
max_queries_per_candidate keyword that the adapters signature does not
accept — version skew noted where it bears on a claim.) -/
def normalize_candidate (env : MbNormEnv) (c : Candidate) (mb_search_limit : ℕ) :
    Option NormalizedCandidate :=
  let viaMbid : Option NormalizedCandidate :=
    if optStrTruthy c.lastfm_mbid then
      match env.resolveMbid (c.lastfm_mbid.getD "") with
      | (some rg, src) =>
        some { title := c.title, artist := c.artist, mb_release_group_id := some rg.id,
               artist_mbids := rg.artist_mbids, primary_type := rg.primary_type,
               first_release_date := rg.first_release_date, confidence := 1, source := src }
      | (none, _) => none
    else none
  match viaMbid with
  | some n => some n
  | none =>
    let viaHint : Option NormalizedCandidate :=
      if optStrTruthy c.rg_mbid_hint then
        match env.getReleaseGroup (c.rg_mbid_hint.getD "") with
        | some rg =>
          some { title := c.title, artist := c.artist, mb_release_group_id := c.rg_mbid_hint,
                 artist_mbids :=
                   if rg.artist_mbids ≠ [] then rg.artist_mbids
                   else if optStrTruthy c.artist_mbid_hint then [c.artist_mbid_hint.getD ""]
                   else [],
                 primary_type := rg.primary_type, first_release_date := rg.first_release_date,
                 confidence := 1, source := "hint:rg_mbid" }
        | none => none
      else none
    match viaHint with
    | some n => some n
    | none =>
      match musicbrainz_best_release_group_match_debug env c.title c.artist mb_search_limit with
      | (none, _, _) => none
      | (some m, _, _) =>
        some { title := c.title, artist := c.artist, mb_release_group_id := some m.rg.id,
               artist_mbids := m.rg.artist_mbids, primary_type := m.rg.primary_type,
               first_release_date := m.rg.first_release_date, confidence := m.confidence,
               source := m.method }

/-- cli._softmax_weights; `expQ` models `math.exp`. -/
def softmax_weights (expQ : ℚ → ℚ) (scores : List ℚ) (temperature : ℚ) : List ℚ :=
  match scores with
  | [] => []
  | s :: rest =>
    let max_score := rest.foldl max s
    let exp_scores := (s :: rest).map (fun x => expQ ((x - max_score) / temperature))
    let total := exp_scores.sum
    if total ≤ 0 then List.replicate (s :: rest).length ((1 : ℚ) / ((s :: rest).length : ℚ))
    else exp_scores.map (fun x => x / total)

/-- cli._weighted_sample_unique_artists, release-group id extraction:
`getattr(getattr(item, "n", None), "mb_release_group_id", "") or ""`. -/
def rgIdOf (s : ScoredCandidate) : String :=
  (s.n.bind (fun n => n.mb_release_group_id)).getD ""

/-- cli._weighted_sample_unique_artists, the unique_items pass: keep
items with a fresh non-empty release-group id together with their score
and whether the id is in the recent set. -/
def uniqueItemsGo (recent : List String) :
    List ScoredCandidate → List String → List (ScoredCandidate × ℚ × Bool)
  | [], _ => []
  | item :: rest, seen =>
    let rg_id := rgIdOf item
    if rg_id = "" ∨ rg_id ∈ seen then uniqueItemsGo recent rest seen
    else (item, item.score, rg_id ∈ recent) :: uniqueItemsGo recent rest (rg_id :: seen)

/-- cli._weighted_sample_unique_artists, the cooling adjustment of the
softmax weights. -/
def adjustWeights (cooling_penalty : Option ℚ)
    (ui : List (ScoredCandidate × ℚ × Bool)) (weights : List ℚ) :
    List (ScoredCandidate × ℚ) :=
  (ui.zip weights).map (fun p =>
    match cooling_penalty with
    | some cp => if p.1.2.2 then (p.1.1, p.2 * max cp 0) else (p.1.1, p.2)
    | none => (p.1.1, p.2))

/-- Cumulative-weight draw of the sampler: first index whose running
total reaches `r`. -/
def chooseIdx (r : ℚ) : ℚ → List (ScoredCandidate × ℚ) → Option ℕ
  | _, [] => none
  | upto, (_, w) :: rest =>
    if upto + w ≥ r then some 0
    else (chooseIdx r (upto + w) rest).map (fun i => i + 1)

/-- cli._artist_identity: the set of non-blank trimmed artist MBIDs and
the normalized fallback artist name. -/
def artist_identity (s : ScoredCandidate) : Finset String × String :=
  let mbids := (((s.n.map (fun n => n.artist_mbids)).getD []).map trimPy).filter
    (fun x => x != "")
  (mbids.toFinset, normalize_artist_credit s.c.artist)

/-- The draw-and-retry loop of cli._weighted_sample_unique_artists. The
first argument after `count` is the remaining attempt budget (the source
increments `attempts` once per iteration and loops while
`attempts <= max_attempts`); `t` indexes the rng draws. A draw whose
artist identity collides with an identity already picked is discarded
and the loop continues. -/
def sampleLoop (rng : ℕ → ℚ) (count : ℕ) :
    ℕ → ℕ → List (ScoredCandidate × ℚ) → List ScoredCandidate →
    Finset String → Finset String → List ScoredCandidate
  | 0, _, _, picks, _, _ => picks
  | fuel + 1, t, candidates, picks, used_mbids, used_fallbacks =>
    if candidates.isEmpty ∨ picks.length ≥ count then picks
    else
      let total := (candidates.map (fun p => p.2)).sum
      if total ≤ 0 then picks
      else
        let r := rng t * total
        match chooseIdx r 0 candidates with
        | none => picks
        | some idx =>
          match candidates.get? idx with
          | none => picks
          | some (item, _w) =>
            let candidates2 := candidates.eraseIdx idx
            let idp := artist_identity item
            let conflict : Bool :=
              (decide (idp.1 ≠ ∅) && decide ((used_mbids ∩ idp.1) ≠ ∅)) ||
              (idp.2 != "" && decide (idp.2 ∈ used_fallbacks))
            if conflict then
              sampleLoop rng count fuel (t + 1) candidates2 picks used_mbids used_fallbacks
            else
              sampleLoop rng count fuel (t + 1) candidates2 (picks ++ [item])
                (used_mbids ∪ idp.1)
                (if idp.2 != "" then insert idp.2 used_fallbacks else used_fallbacks)

/-- cli._weighted_sample_unique_artists (the cooling_hits diagnostic
counter is omitted): softmax-weighted sampling without replacement with
the artist-uniqueness constraint, capped at
`max_attempts = 2 * len(candidates)` retries. -/
def weighted_sample_unique_artists (expQ : ℚ → ℚ) (rng : ℕ → ℚ)
    (items : List ScoredCandidate) (count : ℕ) (recent_ids : List String)
    (cooling_penalty : Option ℚ) (temperature : ℚ) : List ScoredCandidate :=
  let ui := uniqueItemsGo recent_ids items []
  let weights := softmax_weights expQ (ui.map (fun p => p.2.1)) temperature
  let adjusted := adjustWeights cooling_penalty ui weights
  let max_attempts := if adjusted.isEmpty then 0 else adjusted.length * 2
  sampleLoop rng count (max_attempts + 1) 0 adjusted [] ∅ ∅

/-- cli.cmd_build: per-slot sampling temperature
(9.0 / 10.0 / 14.0 for slots 0 / 1 / 2). -/
def slotTemperature (slot_id : ℕ) : ℚ :=
  if slot_id = 0 then 9 else if slot_id = 1 then 10 else 14

/-- cli.cmd_build, the sampling call: the generator is
`random.Random(f"{date_key}:{slot_id}:{theme_key}")`, modelled by the
seed-indexed oracle family `rngFamily`, and cooling_penalty is None. -/
def buildSlotPicks (expQ : ℚ → ℚ) (rngFamily : String → ℕ → ℚ)
    (date_key : String) (slot_id : ℕ) (theme_key : String)
    (eligible : List ScoredCandidate) (recent : List String) : List ScoredCandidate :=
  weighted_sample_unique_artists expQ
    (rngFamily (date_key ++ ":" ++ toString slot_id ++ ":" ++ theme_key))
    eligible 3 recent none (slotTemperature slot_id)

/-- cli.cmd_build, the pre-filter before the hard filters:
`[s for s in out["top"] if getattr(s, "n", None) is not None]`. -/
def dropUnnormalized (items : List ScoredCandidate) : List ScoredCandidate :=
  items.filter (fun s => s.n.isSome)

/-! Concrete instantiations of the oracle environment used to evaluate
the embedded pipeline at specific inputs. -/

/-- Similarity table for the ambiguity scenario: release group `ida`
scores confidence 0.90 and `idb` scores 0.87. -/
def simC1 : String → String → ℚ := fun _ b =>
  if b = "ta1" then 1 else if b = "aa1" then 9/14
  else if b = "ta2" then 1 else if b = "aa2" then 15/28 else 0

def rgA1 : MbReleaseGroup := { id := "ida", title := "ta1", artist_credit := "aa1" }

def rgB1 : MbReleaseGroup := { id := "idb", title := "ta2", artist_credit := "aa2" }

/-- Environment for the ambiguity scenario: the strict query returns the
0.90 and 0.87 release groups, nothing else matches, no mbid paths. -/
def envC1 : MbNormEnv :=
  { sim := simC1
    cleanTitle := fun s => s
    cleanArtist := fun s => s
    normText := fun s => s
    search := fun q _ =>
      if q = "releasegroup:\"Alpha\" AND artist:\"Beta\"" then [rgA1, rgB1] else []
    resolveMbid := fun _ => (none, "mbid:miss")
    getReleaseGroup := fun _ => none }

def candC1 : Candidate := { title := "Alpha", artist := "Beta" }

/-- Similarity table for the threshold scenario: the single release
group scores confidence 0.75. -/
def simC2 : String → String → ℚ := fun _ b =>
  if b = "tc" then 0.8 else if b = "ac" then 87/140 else 0

def rgC2 : MbReleaseGroup := { id := "idc", title := "tc", artist_credit := "ac" }

def envC2 : MbNormEnv :=
  { sim := simC2
    cleanTitle := fun s => s
    cleanArtist := fun s => s
    normText := fun s => s
    search := fun q _ =>
      if q = "releasegroup:\"Alpha\" AND artist:\"Beta\"" then [rgC2] else []
    resolveMbid := fun _ => (none, "mbid:miss")
    getReleaseGroup := fun _ => none }

/-- Similarity table for the top-2 ordering scenario: `ida` scores 0.8,
`idb` scores 0.7 on its first record and 0.9 on its re-hit record. -/
def simC3 : String → String → ℚ := fun _ b =>
  if b = "ta" then 0.9 else if b = "aa" then 19/35
  else if b = "tb" then 0.75 else if b = "ab" then 4/7
  else if b = "tb2" then 1 else if b = "ab2" then 9/14 else 0

def rgA3 : MbReleaseGroup := { id := "ida", title := "ta", artist_credit := "aa" }

def rgB3 : MbReleaseGroup := { id := "idb", title := "tb", artist_credit := "ab" }

/-- A later-tier re-hit of release group `idb` whose record fields
differ, so it scores higher than before. -/
def rgB3v : MbReleaseGroup := { id := "idb", title := "tb2", artist_credit := "ab2" }

def envC3 : MbNormEnv :=
  { sim := simC3
    cleanTitle := fun s => s
    cleanArtist := fun s => s
    normText := fun s => s
    search := fun q _ =>
      if q = "releasegroup:\"Gamma\" AND artist:\"Delta\"" then [rgA3, rgB3]
      else if q = "releasegroup:Gamma AND artist:Delta" then [rgB3v] else []
    resolveMbid := fun _ => (none, "mbid:miss")
    getReleaseGroup := fun _ => none }

/-- C1: evaluation at the claimed failing input. Two catalog candidates
score 0.90 and 0.87 — a gap of 0.03, below the default ambiguity_gap of
0.06 — yet the pipeline returns the 0.90 candidate as a non-null
NormalizedCandidate: the matcher hands the runner-up confidence back,
but _normalize_candidate discards it and run_dry_run deletes the
ambiguity_gap parameter, so no ambiguity rejection ever happens. -/
theorem c1_ambiguity_guard_not_applied :
    (normalize_candidate envC1 candC1 10).map (fun n => n.confidence) = some 0.9 ∧
    (musicbrainz_best_release_group_match_debug envC1 "Alpha" "Beta" 10).2.1 = some 0.87 ∧
    (0.9 : ℚ) - 0.87 < 0.06 := by
  refine ⟨?_, ?_, by norm_num⟩
  · norm_num +decide [normalize_candidate, envC1, candC1, optStrTruthy,
    musicbrainz_best_release_group_match_debug, trimPy, lowerPy, matchAttempts, matchLoop,
    tierStep, tierAccepts, score_release_group_candidate, push_top2, sameId, bumpIfHigher,
    simC1, rgA1, rgB1, joinWith, List.foldl, List.take, List.dropWhile, Char.isWhitespace]
  · norm_num +decide [normalize_candidate, envC1, candC1, optStrTruthy,
    musicbrainz_best_release_group_match_debug, trimPy, lowerPy, matchAttempts, matchLoop,
    tierStep, tierAccepts, score_release_group_candidate, push_top2, sameId, bumpIfHigher,
    simC1, rgA1, rgB1, joinWith, List.foldl, List.take, List.dropWhile, Char.isWhitespace]

/-- C2: evaluation at the claimed failing input. A fuzzy match with
confidence 0.75 against min_confidence = 0.80 is returned as a non-null
NormalizedCandidate: run_dry_run deletes the min_confidence parameter
and _normalize_candidate applies no threshold, so nothing discards the
below-threshold match. -/
theorem c2_threshold_not_applied :
    (normalize_candidate envC2 candC1 10).map (fun n => n.confidence) = some 0.75 ∧
    (0.75 : ℚ) < 0.80 := by
  refine ⟨?_, by norm_num⟩
  norm_num +decide [normalize_candidate, envC2, candC1, optStrTruthy,
    musicbrainz_best_release_group_match_debug, trimPy, lowerPy, matchAttempts, matchLoop,
    tierStep, tierAccepts, score_release_group_candidate, push_top2, sameId, bumpIfHigher,
    simC2, rgC2, joinWith, List.foldl, List.take, List.dropWhile, Char.isWhitespace]

/-- C3 counterexample: a run of the fuzzy search in which the final
tracked state has the runner-up (top2) confidence 0.9 strictly above the
best (top1) confidence 0.8 — release group `idb` enters top2 at 0.7 and
a later-tier re-hit of the same id raises it to 0.9 in place, above
top1, refuting the claimed ordering invariant. -/
theorem c3_counterexample :
    (musicbrainz_best_release_group_match_debug envC3 "Gamma" "Delta" 10).1.map
      (fun m => m.confidence) = some 0.8 ∧
    (musicbrainz_best_release_group_match_debug envC3 "Gamma" "Delta" 10).2.1 = some 0.9 ∧
    ¬((0.9 : ℚ) ≤ 0.8) := by
  refine ⟨?_, ?_, by norm_num⟩
  · norm_num +decide [envC3, optStrTruthy,
    musicbrainz_best_release_group_match_debug, trimPy, lowerPy, matchAttempts, matchLoop,
    tierStep, tierAccepts, score_release_group_candidate, push_top2, sameId, bumpIfHigher,
    simC3, rgA3, rgB3, rgB3v, joinWith, List.foldl, List.take, List.dropWhile, Char.isWhitespace]
  · norm_num +decide [envC3, optStrTruthy,
    musicbrainz_best_release_group_match_debug, trimPy, lowerPy, matchAttempts, matchLoop,
    tierStep, tierAccepts, score_release_group_candidate, push_top2, sameId, bumpIfHigher,
    simC3, rgA3, rgB3, rgB3v, joinWith, List.foldl, List.take, List.dropWhile, Char.isWhitespace]

def candC4 : Candidate := { title := "t", artist := "a" }

/-- C4 counterexample: the jitter divides by 0xFFFFFFFF = 2^32 − 1, so
when the leading 32 bits of the hash are all ones the jitter is exactly
+0.3 — outside the claimed half-open interval [−0.3, +0.3). On a
candidate with no sources and no ranks the score is the jitter alone. -/
theorem c4_counterexample :
    score (fun _ => 4294967295) none candC4 false "seed" = 0.3 ∧
    ¬(score (fun _ => 4294967295) none candC4 false "seed" < 0.3) := by
  have h : score (fun _ => 4294967295) none candC4 false "seed" = 0.3 := by
    norm_num +decide [score, candC4, ranksOf, peak_head, peak_tail, jitterOfHash, optStrTruthy]
  refine ⟨h, by rw [h]; norm_num⟩

def cA5 : Candidate :=
  { title := "T", artist := "A", lastfm_rank := some 5, source_ranks := [("s", 5)] }

def cB5 : Candidate :=
  { title := "T", artist := "A", lastfm_rank := some 3, source_ranks := [("s", 9)] }

/-- C5 counterexample: merging a later occurrence with the same identity
key overwrites already-set values — the source-rank entry "s" goes from
5 to 9 (`dict.update` semantics) and the Last.fm rank from 5 to the
smaller 3 — refuting the claim that set values are never overwritten. -/
theorem c5_counterexample :
    (merge_candidates [cA5, cB5]).map (fun m => lookupKey m.source_ranks "s") = [some 9] ∧
    (merge_candidates [cA5, cB5]).map (fun m => m.lastfm_rank) = [some 3] ∧
    lookupKey cA5.source_ranks "s" = some 5 ∧ cA5.lastfm_rank = some 5 := by
  refine ⟨by decide, by decide, by decide, by decide⟩

/-- C6: the tier gates of the fuzzy matcher. Any admitted candidate has
title similarity ≥ 0.60 and artist similarity ≥ 0.50, and on the
title-only tier additionally artist similarity ≥ 0.62 and confidence
≥ 0.88; a title-only candidate with artist similarity 0.55 is rejected
whatever its confidence. -/
theorem c6_tier_gates :
    (∀ method conf tsim asim, tierAccepts method conf tsim asim = true →
      (0.60 : ℚ) ≤ tsim ∧ (0.50 : ℚ) ≤ asim ∧
      (method = "search:title_only" → (0.62 : ℚ) ≤ asim ∧ (0.88 : ℚ) ≤ conf)) ∧
    (∀ conf tsim, tierAccepts "search:title_only" conf tsim 0.55 = false) := by
  constructor
  · intro method conf tsim asim h
    unfold tierAccepts at h
    split_ifs at h with h1 h2 h3 h4 h5 <;>
      first
        | exact Bool.noConfusion h
        | exact ⟨le_of_not_lt h1, le_trans (by norm_num) (le_of_not_lt h3),
            fun _ => ⟨le_of_not_lt h3, le_of_not_lt h4⟩⟩
        | exact ⟨le_of_not_lt h1, le_of_not_lt h5, fun hm => absurd hm h2⟩
  · intro conf tsim
    simp only [tierAccepts]
    norm_num

theorem c6_tier_gates_witness :
    (0.60 : ℚ) ≤ 0.7 ∧ (0.50 : ℚ) ≤ 0.7 ∧
      ("search:strict" = "search:title_only" → (0.62 : ℚ) ≤ 0.7 ∧ (0.88 : ℚ) ≤ 0.9) :=
  c6_tier_gates.1 "search:strict" 0.9 0.7 0.7 (by norm_num +decide [tierAccepts])

/-- C7: the fuzzy-match confidence formula. For every release group the
computed confidence equals 0.72 × title_sim + 0.28 × artist_sim plus
0.05 for primary type Album, minus 0.10 for EP or Single, minus 0.12
for a Compilation secondary type, minus 0.08 for Live and minus 0.06
for Remix. -/
theorem c7_confidence_formula (sim : String → String → ℚ) (ct ca : String)
    (rg : MbReleaseGroup) :
    (score_release_group_candidate sim ct ca rg).1 =
      0.72 * (score_release_group_candidate sim ct ca rg).2.1 +
      0.28 * (score_release_group_candidate sim ct ca rg).2.2.1 +
      (if lowerPy (rg.primary_type.getD "") = "album" then 0.05
       else if lowerPy (rg.primary_type.getD "") = "ep" ∨
              lowerPy (rg.primary_type.getD "") = "single" then -0.10
       else 0) +
      (if "compilation" ∈ rg.secondary_types.map lowerPy then -0.12 else 0) +
      (if "live" ∈ rg.secondary_types.map lowerPy then -0.08 else 0) +
      (if "remix" ∈ rg.secondary_types.map lowerPy then -0.06 else 0) := by
  simp only [score_release_group_candidate]
  split_ifs <;> simp <;> ring

/-- Every entry surviving the unique_items pass carries a non-empty
release-group id. -/
theorem mem_uniqueItemsGo_rgId (recent : List String) :
    ∀ (items : List ScoredCandidate) (seen : List String) x,
      x ∈ uniqueItemsGo recent items seen → rgIdOf x.1 ≠ "" := by
  intro items
  induction items with
  | nil => intro seen x hx; simp [uniqueItemsGo] at hx
  | cons item rest ih =>
    intro seen x hx
    simp only [uniqueItemsGo] at hx
    split_ifs at hx with h
    · exact ih seen x hx
    · rcases List.mem_cons.mp hx with h1 | h2
      · subst h1
        simpa using fun he => h (Or.inl he)
      · exact ih _ x h2

/-- Cooling adjustment keeps the underlying items of the unique pass. -/
theorem mem_adjustWeights (cp : Option ℚ) (ui : List (ScoredCandidate × ℚ × Bool))
    (ws : List ℚ) (q : ScoredCandidate × ℚ) (h : q ∈ adjustWeights cp ui ws) :
    ∃ x ∈ ui, q.1 = x.1 := by
  simp only [adjustWeights, List.mem_map] at h
  obtain ⟨p, hp, hq⟩ := h
  refine ⟨p.1, (List.of_mem_zip hp).1, ?_⟩
  rcases cp with _ | cpv
  · rw [← hq]
  · rw [← hq]
    split_ifs <;> rfl

/-- The draw loop only ever picks items drawn from its candidate list:
any property of every candidate (and of every already-committed pick)
holds of every returned pick. -/
theorem sampleLoop_mem_prop (P : ScoredCandidate → Prop) (rng : ℕ → ℚ) (count : ℕ) :
    ∀ (fuel t : ℕ) (cands : List (ScoredCandidate × ℚ)) (picks : List ScoredCandidate)
      (usedM usedF : Finset String),
      (∀ pw ∈ cands, P pw.1) → (∀ p ∈ picks, P p) →
      ∀ p ∈ sampleLoop rng count fuel t cands picks usedM usedF, P p := by
  intro fuel
  induction fuel with
  | zero => intro t cands picks usedM usedF _ hpicks p hp; exact hpicks p hp
  | succ fuel ih =>
    intro t cands picks usedM usedF hcands hpicks p hp
    rw [sampleLoop] at hp
    split at hp
    · exact hpicks p hp
    · dsimp only at hp
      split at hp
      · exact hpicks p hp
      · split at hp
        · exact hpicks p hp
        · split at hp
          · exact hpicks p hp
          · rename_i h1x h2x idx heq item w hget
            have hmemi : (item, w) ∈ cands := List.get?_mem hget
            have hcands2 : ∀ pw ∈ cands.eraseIdx h2x, P pw.1 :=
              fun pw hpw => hcands pw ((cands.eraseIdx_sublist h2x).mem hpw)
            split at hp
            · exact ih _ _ _ _ _ hcands2 hpicks p hp
            · refine ih _ _ _ _ _ hcands2 ?_ p hp
              intro q hq
              rcases List.mem_append.mp hq with hq1 | hq2
              · exact hpicks q hq1
              · rw [List.mem_singleton.mp hq2]
                exact hcands (item, w) hmemi

/-- C10: a no-match candidate can never be committed to a slot. The
cmd_build pre-filter keeps only candidates with a non-null
NormalizedCandidate, and independently every pick returned by the
weighted sampler carries a non-empty release-group id (its unique_items
pass skips empty or repeated ids), hence a non-null
NormalizedCandidate. -/
theorem c10_committed_picks_normalized (items : List ScoredCandidate) (expQ : ℚ → ℚ)
    (rng : ℕ → ℚ) (count : ℕ) (recent : List String) (cooling : Option ℚ) (temp : ℚ) :
    (∀ s ∈ dropUnnormalized items, s.n.isSome) ∧
    (∀ p ∈ weighted_sample_unique_artists expQ rng items count recent cooling temp,
      rgIdOf p ≠ "" ∧ p.n.isSome) := by
  constructor
  · intro s hs
    exact (List.mem_filter.mp hs).2
  · intro p hp
    have hrg : rgIdOf p ≠ "" := by
      revert hp
      unfold weighted_sample_unique_artists
      intro hp
      refine sampleLoop_mem_prop (fun q => rgIdOf q ≠ "") rng count _ _ _ _ _ _ ?_ ?_ p hp
      · intro pw hpw
        obtain ⟨x, hx, hx2⟩ := mem_adjustWeights _ _ _ pw hpw
        rw [hx2]
        exact mem_uniqueItemsGo_rgId recent items [] x hx
      · intro q hq; simp at hq
    refine ⟨hrg, ?_⟩
    rcases hn : p.n with _ | nv
    · exact absurd (by simp [rgIdOf, hn]) hrg
    · simp

def sW : ScoredCandidate :=
  { score := 1, c := candC4,
    n := some { title := "t", artist := "a", mb_release_group_id := some "rgx" } }

theorem c10_committed_picks_normalized_witness : sW.n.isSome :=
  (c10_committed_picks_normalized [sW] (fun _ => 1) (fun _ => 0) 1 [] none 10).1 sW
    (by simp [dropUnnormalized, sW])

/-- C9: determinism of the Scorer and the slot sampler. The score reads
its candidate only through the source count, the rank list and the
identity key hashed with the seed, so equal inputs give equal scores;
and the slot sampler is a pure function of the candidate list and the
seed string date:slot_id:theme_key, so repeated runs with the same seed
coincide. -/
theorem c9_determinism (hash32 : String → ℕ) (norm : Option NormalizedCandidate)
    (deepcut : Bool) (seed_key : String) (cx cy : Candidate)
    (hcard : cx.sources.card = cy.sources.card)
    (hranks : ranksOf cx = ranksOf cy)
    (hkey : light_album_key cx.artist cx.title = light_album_key cy.artist cy.title) :
    score hash32 norm cx deepcut seed_key = score hash32 norm cy deepcut seed_key ∧
    (∀ (expQ : ℚ → ℚ) (rngFamily : String → ℕ → ℚ) (date_key : String) (slot_id : ℕ)
      (theme_key : String) (eligible : List ScoredCandidate) (recent : List String),
      buildSlotPicks expQ rngFamily date_key slot_id theme_key eligible recent =
      buildSlotPicks expQ rngFamily date_key slot_id theme_key eligible recent) := by
  refine ⟨?_, fun _ _ _ _ _ _ _ => rfl⟩
  simp only [score, hcard, hranks, hkey]

theorem c9_determinism_witness :
    score (fun _ => 0) none candC4 false "s" = score (fun _ => 0) none candC4 false "s" ∧
    (∀ (expQ : ℚ → ℚ) (rngFamily : String → ℕ → ℚ) (date_key : String) (slot_id : ℕ)
      (theme_key : String) (eligible : List ScoredCandidate) (recent : List String),
      buildSlotPicks expQ rngFamily date_key slot_id theme_key eligible recent =
      buildSlotPicks expQ rngFamily date_key slot_id theme_key eligible recent) :=
  c9_determinism (fun _ => 0) none false "s" candC4 candC4 rfl rfl rfl

/-- Distinctness invariant of the top-2 tracker: when both slots are
set their release-group ids differ, and top2 is never set before
top1. -/
def top2Distinct (st : Option MbBestMatch × Option MbBestMatch) : Prop :=
  (∀ t1 ∈ st.1, ∀ t2 ∈ st.2, t1.rg.id ≠ t2.rg.id) ∧ (st.1 = none → st.2 = none)

/-- Confidence-consistency and ordering invariant of the top-2 tracker,
relative to a fixed confidence-per-id function `f`. -/
def top2Ordered (f : String → ℚ) (st : Option MbBestMatch × Option MbBestMatch) : Prop :=
  (∀ t ∈ st.1, t.confidence = f t.rg.id) ∧ (∀ t ∈ st.2, t.confidence = f t.rg.id) ∧
  (∀ t1 ∈ st.1, ∀ t2 ∈ st.2, t2.confidence ≤ t1.confidence)

theorem top2Distinct_fst_some {a : MbBestMatch} {o2 : Option MbBestMatch}
    (h : ∀ t2 ∈ o2, a.rg.id ≠ t2.rg.id) : top2Distinct (some a, o2) := by
  refine ⟨?_, by simp⟩
  intro u hu v hv
  simp only [Option.mem_def, Option.some.injEq] at hu
  subst hu
  exact h v hv

theorem top2Distinct_some_none (a : MbBestMatch) : top2Distinct (some a, none) :=
  top2Distinct_fst_some (by simp)

theorem top2Distinct_some_some {a b : MbBestMatch} (h : a.rg.id ≠ b.rg.id) :
    top2Distinct (some a, some b) := by
  refine top2Distinct_fst_some ?_
  intro v hv
  simp only [Option.mem_def, Option.some.injEq] at hv
  subst hv
  exact h

/-- Pushing a hit whose id matches the stored entry keeps that id and
updates the stored confidence to the maximum of old and new. -/
theorem bumpIfHigher_id (t cand : MbBestMatch) (hid : cand.rg.id = t.rg.id) :
    ∃ u, bumpIfHigher (some t) cand = some u ∧ u.rg.id = t.rg.id ∧
      u.confidence = max t.confidence cand.confidence := by
  simp only [bumpIfHigher]
  split_ifs with h
  · exact ⟨cand, rfl, hid, (max_eq_right (le_of_lt h)).symm⟩
  · exact ⟨t, rfl, rfl, (max_eq_left (not_lt.mp h)).symm⟩

/-- adapters._push_top2 preserves the distinctness invariant, with no
hypothesis on confidences. -/
theorem push_top2_distinct (st : Option MbBestMatch × Option MbBestMatch) (cand : MbBestMatch)
    (h : top2Distinct st) : top2Distinct (push_top2 st cand) := by
  obtain ⟨o1, o2⟩ := st
  obtain ⟨hd, hn⟩ := h
  rcases o1 with _ | t1
  · have ho2 : o2 = none := hn rfl
    subst ho2
    simp [push_top2, sameId, top2Distinct]
  · by_cases hid1 : cand.rg.id = t1.rg.id
    · have e1 : sameId (some t1) cand = true := by simp [sameId, hid1]
      simp only [push_top2, e1, if_true]
      obtain ⟨u, hbu, huid, _⟩ := bumpIfHigher_id t1 cand hid1
      rw [hbu]
      refine top2Distinct_fst_some ?_
      intro v hv
      rw [huid]
      exact hd t1 rfl v hv
    · have e1 : sameId (some t1) cand = false := by simp [sameId, hid1]
      rcases o2 with _ | t2
      · have e2 : sameId none cand = false := rfl
        simp only [push_top2, e1, e2, Bool.false_eq_true, if_false, bne_iff_ne]
        split_ifs with hc1 hne
        · exact top2Distinct_some_some hid1
        · exact top2Distinct_some_none cand
        · exact top2Distinct_some_some (Ne.symm hid1)
      · by_cases hid2 : cand.rg.id = t2.rg.id
        · have e2 : sameId (some t2) cand = true := by simp [sameId, hid2]
          simp only [push_top2, e1, e2, Bool.false_eq_true, if_false, if_true]
          obtain ⟨u, hbu, huid, _⟩ := bumpIfHigher_id t2 cand hid2
          rw [hbu]
          refine top2Distinct_fst_some ?_
          intro v hv
          simp only [Option.mem_def, Option.some.injEq] at hv
          subst hv
          rw [huid]
          exact hd t1 rfl t2 rfl
        · have e2 : sameId (some t2) cand = false := by simp [sameId, hid2]
          simp only [push_top2, e1, e2, Bool.false_eq_true, if_false, bne_iff_ne]
          split_ifs with hc1 hne hc2
          · exact top2Distinct_some_some hid1
          · exact top2Distinct_some_some hid2
          · exact top2Distinct_some_some (Ne.symm hid1)
          · exact top2Distinct_some_some (hd t1 rfl t2 rfl)


theorem forall_opt_some {P : MbBestMatch → Prop} (a : MbBestMatch) (h : P a) :
    ∀ t ∈ (some a : Option MbBestMatch), P t := by
  intro t ht
  simp only [Option.mem_def, Option.some.injEq] at ht
  subst ht
  exact h

theorem top2Ordered_build {f : String → ℚ} {a : MbBestMatch} {o2 : Option MbBestMatch}
    (ha : a.confidence = f a.rg.id) (h2 : ∀ t ∈ o2, t.confidence = f t.rg.id)
    (hor : ∀ t ∈ o2, t.confidence ≤ a.confidence) : top2Ordered f (some a, o2) := by
  refine ⟨forall_opt_some a ha, h2, ?_⟩
  intro u hu v hv
  simp only [Option.mem_def, Option.some.injEq] at hu
  subst hu
  exact hor v hv

/-- adapters._push_top2 preserves consistency with a fixed
confidence-per-id function and the top1-above-top2 ordering. -/
theorem push_top2_ordered (f : String → ℚ) (st : Option MbBestMatch × Option MbBestMatch)
    (cand : MbBestMatch) (hc : cand.confidence = f cand.rg.id)
    (hdist : top2Distinct st) (h : top2Ordered f st) : top2Ordered f (push_top2 st cand) := by
  obtain ⟨o1, o2⟩ := st
  obtain ⟨hd, hn⟩ := hdist
  obtain ⟨h1, h2, hord⟩ := h
  rcases o1 with _ | t1
  · have ho2 : o2 = none := hn rfl
    subst ho2
    have he : push_top2 (none, none) cand = (some cand, none) := rfl
    rw [he]
    exact top2Ordered_build hc (by simp) (by simp)
  · by_cases hid1 : cand.rg.id = t1.rg.id
    · have e1 : sameId (some t1) cand = true := by simp [sameId, hid1]
      simp only [push_top2, e1, if_true]
      obtain ⟨u, hbu, huid, hconf⟩ := bumpIfHigher_id t1 cand hid1
      rw [hbu]
      have ht1f : t1.confidence = f t1.rg.id := h1 t1 rfl
      have hcf2 : cand.confidence = f t1.rg.id := by rw [hc, hid1]
      have huf : u.confidence = t1.confidence := by
        rw [hconf, ht1f, hcf2]
        exact max_self _
      refine top2Ordered_build ?_ h2 ?_
      · rw [huf, huid]; exact ht1f
      · intro v hv; rw [huf]; exact hord t1 rfl v hv
    · have e1 : sameId (some t1) cand = false := by simp [sameId, hid1]
      rcases o2 with _ | t2
      · have e2 : sameId (none : Option MbBestMatch) cand = false := rfl
        simp only [push_top2, e1, e2, Bool.false_eq_true, if_false]
        split_ifs with hc1 hne
        · exact top2Ordered_build hc (forall_opt_some t1 (h1 t1 rfl))
            (forall_opt_some t1 (le_of_lt hc1))
        · exact top2Ordered_build hc (by simp) (by simp)
        · exact top2Ordered_build (h1 t1 rfl) (forall_opt_some cand hc)
            (forall_opt_some cand (not_lt.mp hc1))
      · by_cases hid2 : cand.rg.id = t2.rg.id
        · have e2 : sameId (some t2) cand = true := by simp [sameId, hid2]
          simp only [push_top2, e1, e2, Bool.false_eq_true, if_false, if_true]
          obtain ⟨u, hbu, huid, hconf⟩ := bumpIfHigher_id t2 cand hid2
          rw [hbu]
          have ht2f : t2.confidence = f t2.rg.id := h2 t2 rfl
          have hcf2 : cand.confidence = f t2.rg.id := by rw [hc, hid2]
          have huf : u.confidence = t2.confidence := by
            rw [hconf, ht2f, hcf2]
            exact max_self _
          refine top2Ordered_build (h1 t1 rfl) ?_ ?_
          · refine forall_opt_some u ?_
            rw [huf, huid]
            exact ht2f
          · refine forall_opt_some u ?_
            rw [huf]
            exact hord t1 rfl t2 rfl
        · have e2 : sameId (some t2) cand = false := by simp [sameId, hid2]
          simp only [push_top2, e1, e2, Bool.false_eq_true, if_false]
          split_ifs with hc1 hne hc2
          · exact top2Ordered_build hc (forall_opt_some t1 (h1 t1 rfl))
              (forall_opt_some t1 (le_of_lt hc1))
          · exact top2Ordered_build hc (forall_opt_some t2 (h2 t2 rfl))
              (forall_opt_some t2 (le_trans (hord t1 rfl t2 rfl) (le_of_lt hc1)))
          · exact top2Ordered_build (h1 t1 rfl) (forall_opt_some cand hc)
              (forall_opt_some cand (not_lt.mp hc1))
          · exact top2Ordered_build (h1 t1 rfl) h2 (forall_opt_some t2 (hord t1 rfl t2 rfl))

/-- Folding any hit sequence through the tracker keeps distinctness. -/
theorem foldl_push_top2_distinct (l : List MbBestMatch) :
    ∀ st, top2Distinct st → top2Distinct (l.foldl push_top2 st) := by
  induction l with
  | nil => intro st h; exact h
  | cons c rest ih => intro st h; exact ih _ (push_top2_distinct st c h)

/-- Folding hits whose confidence is a function of their id keeps the
ordering invariant. -/
theorem foldl_push_top2_ordered (f : String → ℚ) (l : List MbBestMatch) :
    ∀ st, (∀ c ∈ l, c.confidence = f c.rg.id) → top2Distinct st → top2Ordered f st →
      top2Ordered f (l.foldl push_top2 st) := by
  induction l with
  | nil => intro st _ _ h; exact h
  | cons c rest ih =>
    intro st hl hdist h
    exact ih _ (fun x hx => hl x (List.mem_cons_of_mem c hx))
      (push_top2_distinct st c hdist)
      (push_top2_ordered f st c (hl c (List.mem_cons_self c rest)) hdist h)

/-- C3 (amended): along any hit sequence, the tracked top1 and top2,
when both set, hold distinct release-group ids; a re-hit of a tracked id
updates the tracked entry in place to the higher confidence and touches
nothing else; and the ordering top1.confidence >= top2.confidence holds
provided every hit of a given release-group id carries the same
confidence (the counterexample shows it fails otherwise). -/
theorem c3_amended_top2_tracking (l : List MbBestMatch) (f : String → ℚ) :
    (∀ t1 ∈ (l.foldl push_top2 (none, none)).1, ∀ t2 ∈ (l.foldl push_top2 (none, none)).2,
      t1.rg.id ≠ t2.rg.id) ∧
    ((∀ c ∈ l, c.confidence = f c.rg.id) →
      ∀ t1 ∈ (l.foldl push_top2 (none, none)).1, ∀ t2 ∈ (l.foldl push_top2 (none, none)).2,
        t2.confidence ≤ t1.confidence) ∧
    (∀ st (cand : MbBestMatch), sameId st.1 cand = true →
      push_top2 st cand = (bumpIfHigher st.1 cand, st.2)) ∧
    (∀ st (cand : MbBestMatch), sameId st.1 cand = false → sameId st.2 cand = true →
      push_top2 st cand = (st.1, bumpIfHigher st.2 cand)) ∧
    (∀ (t cand : MbBestMatch), cand.rg.id = t.rg.id →
      ∃ u, bumpIfHigher (some t) cand = some u ∧ u.rg.id = t.rg.id ∧
        u.confidence = max t.confidence cand.confidence) := by
  refine ⟨?_, ?_, ?_, ?_, bumpIfHigher_id⟩
  · exact (foldl_push_top2_distinct l (none, none) ⟨by simp, by simp⟩).1
  · intro hl
    exact (foldl_push_top2_ordered f l (none, none) hl ⟨by simp, by simp⟩
      ⟨by simp, by simp, by simp⟩).2.2
  · intro st cand hs
    obtain ⟨o1, o2⟩ := st
    simp [push_top2, hs]
  · intro st cand hs1 hs2
    obtain ⟨o1, o2⟩ := st
    simp [push_top2, hs1, hs2]

def mA3w : MbBestMatch :=
  { rg := rgA3, confidence := 0.9, method := "search:strict", query := "q",
    title_sim := 1, artist_sim := 1, note := "" }

def mB3w : MbBestMatch :=
  { rg := rgB3, confidence := 0.8, method := "search:strict", query := "q",
    title_sim := 1, artist_sim := 1, note := "" }

theorem c3_amended_top2_tracking_witness : ("ida" : String) ≠ "idb" ∧ (0.8 : ℚ) ≤ 0.9 := by
  have h := c3_amended_top2_tracking [mA3w, mB3w]
    (fun s => if s = "ida" then (0.9 : ℚ) else 0.8)
  have hfold : ([mA3w, mB3w].foldl push_top2 (none, none)) = (some mA3w, some mB3w) := by
    norm_num +decide [push_top2, sameId, bumpIfHigher, mA3w, mB3w, rgA3, rgB3]
  constructor
  · have hne := h.1 mA3w (by rw [hfold]; rfl) mB3w (by rw [hfold]; rfl)
    exact fun he => hne (by simp only [mA3w, mB3w, rgA3, rgB3]; exact he)
  · have hle := h.2.1 (by
      intro c hc
      rcases List.mem_cons.mp hc with h1 | h2
      · subst h1; norm_num +decide [mA3w, rgA3]
      · rw [List.mem_singleton.mp h2]; norm_num +decide [mB3w, rgB3])
      mA3w (by rw [hfold]; rfl) mB3w (by rw [hfold]; rfl)
    simpa [mA3w, mB3w] using hle


/-- C4 (amended): the score decomposes as source_diversity_bonus +
rank_score + quality_bonus + deterministic_jitter with the claimed rank
formulas over 1-based ranks, and the jitter lies in the closed interval
[-0.3, +0.3] (dividing by 0xFFFFFFFF = 2^32 - 1 makes +0.3 attainable at
a hash prefix of all ones, so the interval is closed, not half-open). -/
theorem c4_amended_score_formula (hash32 : String → ℕ) (h32 : ∀ s, hash32 s < 2 ^ 32)
    (norm : Option NormalizedCandidate) (cand : Candidate) (deepcut : Bool)
    (seed_key : String) (hranks : ∀ r ∈ ranksOf cand, 1 ≤ r) :
    score hash32 norm cand deepcut seed_key =
      ((max 0 ((cand.sources.card : ℤ) - 1) : ℤ) : ℚ) * 6
      + ((((ranksOf cand).map (fun r : Int => max 0 ((18 : ℚ) - (r : ℚ)) * 0.8
            + min 22 (max 0 ((r : ℚ) - 60) * 0.12))).sum)
         - (if deepcut then (((ranksOf cand).filter (fun r => r ≤ 25)).map
              (fun r : Int => ((26 : ℚ) - (r : ℚ)) * 0.9)).sum else 0))
      + ((if optStrTruthy (norm.bind (fun x => x.mb_release_group_id)) then 6 else 0)
         + (if norm.bind (fun x => x.primary_type) = some "Album" then 2.5 else 0)
         + (if optStrTruthy (norm.bind (fun x => x.first_release_date)) then 1 else 0))
      + jitterOfHash (hash32 (seed_key ++ light_album_key cand.artist cand.title)) ∧
    -0.3 ≤ jitterOfHash (hash32 (seed_key ++ light_album_key cand.artist cand.title)) ∧
    jitterOfHash (hash32 (seed_key ++ light_album_key cand.artist cand.title)) ≤ 0.3 := by
  have hmap : (ranksOf cand).map (fun r => peak_head r + peak_tail r)
      = (ranksOf cand).map (fun r : Int => max 0 ((18 : ℚ) - (r : ℚ)) * 0.8
          + min 22 (max 0 ((r : ℚ) - 60) * 0.12)) := by
    refine List.map_congr_left ?_
    intro r hr
    have hpos : ¬ r ≤ 0 := by
      have := hranks r hr
      omega
    simp [peak_head, peak_tail, hpos]
  have hv := h32 (seed_key ++ light_album_key cand.artist cand.title)
  have h0 : (0 : ℚ) ≤ (hash32 (seed_key ++ light_album_key cand.artist cand.title) : ℚ)
      / 4294967295 := div_nonneg (by positivity) (by norm_num)
  have h1 : (hash32 (seed_key ++ light_album_key cand.artist cand.title) : ℚ)
      / 4294967295 ≤ 1 := by
    rw [div_le_one (by norm_num)]
    exact_mod_cast Nat.lt_succ_iff.mp (by exact_mod_cast hv)
  refine ⟨?_, ?_, ?_⟩
  · simp only [score, hmap]
    cases deepcut <;> simp
  · rw [jitterOfHash]
    nlinarith [h0, h1]
  · rw [jitterOfHash]
    nlinarith [h0, h1]

def candC4r : Candidate := { title := "t", artist := "a", lastfm_rank := some 1 }

theorem c4_amended_score_formula_witness :
    -0.3 ≤ jitterOfHash ((fun _ => 0) ("s" ++ light_album_key candC4r.artist candC4r.title)) ∧
    jitterOfHash ((fun _ => 0) ("s" ++ light_album_key candC4r.artist candC4r.title)) ≤ 0.3 :=
  (c4_amended_score_formula (fun _ => 0) (fun _ => by norm_num) none candC4r false "s"
    (by decide)).2


theorem lookup_setKey_self (l : List (String × Int)) (k : String) (v : Int) :
    lookupKey (setKey l k v) k = some v := by
  induction l with
  | nil => simp [setKey, lookupKey]
  | cons kv rest ih =>
    obtain ⟨k0, v0⟩ := kv
    simp only [setKey]
    split_ifs with h
    · simp [lookupKey]
    · have hb : (k0 == k) = false := beq_eq_false_iff_ne.mpr h
      simp only [lookupKey] at ih ⊢
      rw [List.find?_cons_of_neg _ (by simp [hb])]
      exact ih

theorem lookup_setKey_ne (l : List (String × Int)) (k : String) (v : Int) (k2 : String)
    (h : k2 ≠ k) : lookupKey (setKey l k v) k2 = lookupKey l k2 := by
  have hb : (k == k2) = false := beq_eq_false_iff_ne.mpr (Ne.symm h)
  induction l with
  | nil =>
    simp only [setKey, lookupKey]
    rw [List.find?_cons_of_neg _ (by simp [hb])]
  | cons kv rest ih =>
    obtain ⟨k0, v0⟩ := kv
    simp only [setKey]
    split_ifs with h0
    · subst h0
      simp only [lookupKey]
      rw [List.find?_cons_of_neg _ (by simp [hb]), List.find?_cons_of_neg _ (by simp [hb])]
    · simp only [lookupKey] at ih ⊢
      rcases hbeq : (k0 == k2) with _ | _
      · rw [List.find?_cons_of_neg _ (by simp [hbeq]), List.find?_cons_of_neg _ (by simp [hbeq])]
        exact ih
      · rw [List.find?_cons_of_pos _ (by simp [hbeq]), List.find?_cons_of_pos _ (by simp [hbeq])]

theorem lookup_none_of_not_mem (l : List (String × Int)) (k : String)
    (h : k ∉ l.map Prod.fst) : lookupKey l k = none := by
  induction l with
  | nil => rfl
  | cons kv rest ih =>
    simp only [List.map_cons, List.mem_cons] at h
    push_neg at h
    have hb : (kv.1 == k) = false := beq_eq_false_iff_ne.mpr (Ne.symm h.1)
    simp only [lookupKey]
    rw [List.find?_cons_of_neg _ (by simp [hb])]
    exact ih h.2

theorem lookup_dictUpdate_none (upd : List (String × Int)) :
    ∀ (old : List (String × Int)) (k : String), lookupKey upd k = none →
      lookupKey (dictUpdate old upd) k = lookupKey old k := by
  induction upd with
  | nil => intro old k _; rfl
  | cons kv rest ih =>
    intro old k h
    obtain ⟨k0, v0⟩ := kv
    have hstep : dictUpdate old ((k0, v0) :: rest) = dictUpdate (setKey old k0 v0) rest := rfl
    rcases hbeq : (k0 == k) with _ | _
    · have hne : k0 ≠ k := by simpa using hbeq
      have hrest : lookupKey rest k = none := by
        simp only [lookupKey] at h
        rw [List.find?_cons_of_neg _ (by simp [hbeq])] at h
        exact h
      rw [hstep, ih (setKey old k0 v0) k hrest, lookup_setKey_ne _ _ _ _ (Ne.symm hne)]
    · exfalso
      have h2 : lookupKey ((k0, v0) :: rest) k = some v0 := by
        simp only [lookupKey]
        rw [List.find?_cons_of_pos _ (by simp [hbeq])]
        rfl
      rw [h] at h2
      exact Option.noConfusion h2

theorem lookup_dictUpdate_some (upd : List (String × Int)) :
    ∀ (old : List (String × Int)) (k : String) (v : Int),
      (upd.map Prod.fst).Nodup → lookupKey upd k = some v →
      lookupKey (dictUpdate old upd) k = some v := by
  induction upd with
  | nil => intro old k v _ h; simp [lookupKey] at h
  | cons kv rest ih =>
    intro old k v hnd h
    obtain ⟨k0, v0⟩ := kv
    have hstep : dictUpdate old ((k0, v0) :: rest) = dictUpdate (setKey old k0 v0) rest := rfl
    have hnd0 : (k0 :: rest.map Prod.fst).Nodup := by simpa using hnd
    have hnd2 := List.nodup_cons.mp hnd0
    rcases hbeq : (k0 == k) with _ | _
    · have hrest : lookupKey rest k = some v := by
        simp only [lookupKey] at h
        rw [List.find?_cons_of_neg _ (by simp [hbeq])] at h
        exact h
      rw [hstep]
      exact ih (setKey old k0 v0) k v hnd2.2 hrest
    · have hk0 : k0 = k := by simpa using hbeq
      have h2 : lookupKey ((k0, v0) :: rest) k = some v0 := by
        simp only [lookupKey]
        rw [List.find?_cons_of_pos _ (by simp [hbeq])]
        rfl
      have hv0 : v0 = v := Option.some.inj (h2.symm.trans h)
      subst hv0
      subst hk0
      have hrest : lookupKey rest k0 = none := lookup_none_of_not_mem rest k0 hnd2.1
      rw [hstep, lookup_dictUpdate_none rest (setKey old k0 v0) k0 hrest,
        lookup_setKey_self]


/-- C5 (amended): the first occurrence per identity key establishes the
record (title/artist kept, a singleton merges to itself, distinct keys
stay separate, empty input gives empty output); a later same-key
occurrence is folded into it: source-name sets are unioned, source-rank
entries are merged with dict.update semantics (the later occurrence
overwrites a same-named entry, other entries are preserved), the Last.fm
rank keeps the minimum, and image and canonical-id hints are backfilled
only when still missing, never overwritten once set. -/
theorem c5_amended_merge_rule :
    (merge_candidates [] = []) ∧
    (∀ c : Candidate, merge_candidates [c] = [c]) ∧
    (∀ c1 c2 : Candidate,
      light_album_key c1.artist c1.title = light_album_key c2.artist c2.title →
      merge_candidates [c1, c2] = [mergeInto c1 c2]) ∧
    (∀ c1 c2 : Candidate,
      light_album_key c1.artist c1.title ≠ light_album_key c2.artist c2.title →
      merge_candidates [c1, c2] = [c1, c2]) ∧
    (∀ m c : Candidate, (mergeInto m c).title = m.title ∧ (mergeInto m c).artist = m.artist) ∧
    (∀ m c : Candidate, (mergeInto m c).sources = m.sources ∪ c.sources) ∧
    (∀ m c : Candidate, optStrTruthy m.image_url = true →
      (mergeInto m c).image_url = m.image_url) ∧
    (∀ m c : Candidate, optStrTruthy m.lastfm_mbid = true →
      (mergeInto m c).lastfm_mbid = m.lastfm_mbid) ∧
    (∀ m c : Candidate, optStrTruthy m.rg_mbid_hint = true →
      (mergeInto m c).rg_mbid_hint = m.rg_mbid_hint) ∧
    (∀ m c : Candidate, optStrTruthy m.artist_mbid_hint = true →
      (mergeInto m c).artist_mbid_hint = m.artist_mbid_hint) ∧
    (∀ m c : Candidate, optStrTruthy m.image_url = false → optStrTruthy c.image_url = true →
      (mergeInto m c).image_url = c.image_url) ∧
    (∀ (m c : Candidate) (k : String) (v : Int), (c.source_ranks.map Prod.fst).Nodup →
      lookupKey c.source_ranks k = some v →
      lookupKey (mergeInto m c).source_ranks k = some v) ∧
    (∀ (m c : Candidate) (k : String), lookupKey c.source_ranks k = none →
      lookupKey (mergeInto m c).source_ranks k = lookupKey m.source_ranks k) ∧
    (∀ (m c : Candidate) (cr mr : Int), c.lastfm_rank = some cr → m.lastfm_rank = some mr →
      (mergeInto m c).lastfm_rank = some (min cr mr)) ∧
    (∀ m c : Candidate, m.lastfm_rank = none → (mergeInto m c).lastfm_rank = c.lastfm_rank) ∧
    (∀ m c : Candidate, c.lastfm_rank = none → (mergeInto m c).lastfm_rank = m.lastfm_rank) := by
  refine ⟨rfl, ?_, ?_, ?_, fun m c => ⟨rfl, rfl⟩, fun m c => rfl, ?_, ?_, ?_, ?_, ?_, ?_, ?_,
    ?_, ?_, ?_⟩
  · intro c
    simp [merge_candidates, mergeStep]
  · intro c1 c2 h
    simp [merge_candidates, mergeStep, h]
  · intro c1 c2 h
    have hb : (light_album_key c1.artist c1.title == light_album_key c2.artist c2.title) = false :=
      beq_eq_false_iff_ne.mpr h
    simp [merge_candidates, mergeStep, hb]
  · intro m c h
    simp [mergeInto, h]
  · intro m c h
    simp [mergeInto, h]
  · intro m c h
    simp [mergeInto, h]
  · intro m c h
    simp [mergeInto, h]
  · intro m c h1 h2
    simp [mergeInto, h1, h2]
  · intro m c k v hnd hv
    exact lookup_dictUpdate_some c.source_ranks m.source_ranks k v hnd hv
  · intro m c k h
    exact lookup_dictUpdate_none c.source_ranks m.source_ranks k h
  · intro m c cr mr h1 h2
    simp only [mergeInto, h1, h2]
    split_ifs with h
    · rw [min_eq_left (le_of_lt h)]
    · rw [min_eq_right (not_lt.mp h)]
  · intro m c h
    rcases hc : c.lastfm_rank with _ | cr <;> simp [mergeInto, h, hc]
  · intro m c h
    rcases hm : m.lastfm_rank with _ | mr <;> simp [mergeInto, h, hm]

theorem c5_amended_merge_rule_witness :
    lookupKey (mergeInto cA5 cB5).source_ranks "s" = some 9 := by
  obtain ⟨-, -, -, -, -, -, -, -, -, -, -, h12, -⟩ := c5_amended_merge_rule
  exact h12 cA5 cB5 "s" 9 (by decide) (by decide)


/-- Two picks with non-overlapping artist identities: disjoint MBID
sets, and distinct normalized fallback names when both are non-blank. -/
def artistDisjoint (p q : ScoredCandidate) : Prop :=
  (artist_identity p).1 ∩ (artist_identity q).1 = ∅ ∧
  ((artist_identity p).2 ≠ "" → (artist_identity q).2 ≠ "" →
    (artist_identity p).2 ≠ (artist_identity q).2)

/-- Invariant of the draw loop: picks whose identities are recorded in
the used sets and pairwise non-overlapping stay that way, and the pick
list never exceeds `count`. -/
theorem sampleLoop_unique (rng : ℕ → ℚ) (count : ℕ) :
    ∀ (fuel t : ℕ) (cands : List (ScoredCandidate × ℚ)) (picks : List ScoredCandidate)
      (usedM usedF : Finset String),
      (∀ p ∈ picks, (artist_identity p).1 ⊆ usedM) →
      (∀ p ∈ picks, (artist_identity p).2 ≠ "" → (artist_identity p).2 ∈ usedF) →
      List.Pairwise artistDisjoint picks →
      picks.length ≤ count →
      List.Pairwise artistDisjoint (sampleLoop rng count fuel t cands picks usedM usedF) ∧
      (sampleLoop rng count fuel t cands picks usedM usedF).length ≤ count := by
  intro fuel
  induction fuel with
  | zero => intro t cands picks usedM usedF _ _ hpw hlen; exact ⟨hpw, hlen⟩
  | succ fuel ih =>
    intro t cands picks usedM usedF hsub hfb hpw hlen
    rw [sampleLoop]
    split
    · exact ⟨hpw, hlen⟩
    · rename_i hstop
      dsimp only
      split
      · exact ⟨hpw, hlen⟩
      · split
        · exact ⟨hpw, hlen⟩
        · split
          · exact ⟨hpw, hlen⟩
          · rename_i h1x h2x idx heq item w hget
            split
            · exact ih _ _ _ _ _ hsub hfb hpw hlen
            · rename_i hnc
              push_neg at hstop
              have hltc : picks.length < count := hstop.2
              simp only [Bool.or_eq_true, Bool.and_eq_true, decide_eq_true_eq,
                bne_iff_ne, not_or, not_and] at hnc
              refine ih _ _ _ _ _ ?_ ?_ ?_ ?_
              · intro p hp
                rcases List.mem_append.mp hp with hp1 | hp2
                · exact (hsub p hp1).trans Finset.subset_union_left
                · rw [List.mem_singleton.mp hp2]
                  exact Finset.subset_union_right
              · intro p hp hne
                rcases List.mem_append.mp hp with hp1 | hp2
                · have := hfb p hp1 hne
                  split
                  · exact Finset.mem_insert_of_mem this
                  · exact this
                · rw [List.mem_singleton.mp hp2] at hne ⊢
                  rw [if_pos (by simpa using hne)]
                  exact Finset.mem_insert_self _ _
              · rw [List.pairwise_append]
                refine ⟨hpw, by simp, ?_⟩
                intro a ha b hb
                rw [List.mem_singleton.mp hb]
                constructor
                · by_cases hmb : (artist_identity item).1 = ∅
                  · rw [hmb, Finset.inter_empty]
                  · have hB : ¬(usedM ∩ (artist_identity item).1 ≠ ∅) := hnc.1 hmb
                    push_neg at hB
                    refine Finset.subset_empty.mp ?_
                    rw [← hB]
                    exact Finset.inter_subset_inter (hsub a ha) (Finset.Subset.refl _)
                · intro hafb hifb heqfb
                  have hD : (artist_identity item).2 ∉ usedF := hnc.2 hifb
                  exact hD (heqfb ▸ hfb a ha hafb)
              · have : (picks ++ [item]).length = picks.length + 1 := by simp
                omega

/-- C8: for every weight- and rng-oracle, the slot sampler returns at
most `count` picks, no two of which share an artist MBID or a non-blank
normalized fallback artist name; its draw-and-retry loop is the embedded
attempt budget 2 x (number of unique candidates) of the source, so it
runs at most that many retries plus one. -/
theorem c8_sampler_bounded_unique (expQ : ℚ → ℚ) (rng : ℕ → ℚ)
    (items : List ScoredCandidate) (count : ℕ) (recent_ids : List String)
    (cooling_penalty : Option ℚ) (temperature : ℚ) :
    (weighted_sample_unique_artists expQ rng items count recent_ids cooling_penalty
      temperature).length ≤ count ∧
    List.Pairwise artistDisjoint
      (weighted_sample_unique_artists expQ rng items count recent_ids cooling_penalty
        temperature) := by
  unfold weighted_sample_unique_artists
  dsimp only
  constructor
  · exact (sampleLoop_unique rng count _ 0 _ [] ∅ ∅ (by simp) (by simp) (by simp) (by simp)).2
  · exact (sampleLoop_unique rng count _ 0 _ [] ∅ ∅ (by simp) (by simp) (by simp) (by simp)).1

end Daily3Albums
